import Mathlib

/-!
Verification development for the TPX3 mass-microscopy pipeline.

The Rust sources are shallowly embedded: `u64` values are `Nat` (with
explicit `% 2 ^ 64` where two's-complement wrap matters), `i64` values are
`Int`, `f64`/`f32` arithmetic is idealised over `ℚ` where a claim does not
depend on rounding, and file iterators become pure functions over lists of
64-bit packets.
-/

namespace TPX3

/-- reader.rs: TDC coarse-clock wrap period, in picoseconds. -/
def TDC_LIMIT : Int := 107374182400000

/-- reader.rs: ToA coarse-clock wrap period, in picoseconds. -/
def HIT_LIMIT : Int := 26843545600000

/-- reader.rs: `ROLL` constant used by `roll`. -/
def ROLL : Int := 26000000000000

/-- reader.rs: `CHECK` constant used by `roll`. -/
def CHECK : Int := 100000000000

/-- Two's-complement `!x` on a Rust `u64` (valid for `x < 2 ^ 64`). -/
def u64not (x : Nat) : Nat := 18446744073709551615 - x

/-- Rust `x as i64` applied to a `u64` value `x < 2 ^ 64`. -/
def i64_of_u64 (x : Nat) : Int :=
  if x < 9223372036854775808 then (x : Int) else (x : Int) - 18446744073709551616

/-- reader.rs `parse_hit_packet`: extracts `(col, row, tot, toa)` from a hit
packet.  The trailing `% 256` / `% 4294967296` are the `as u8` / `as u32`
casts of the source. -/
def parse_hit_packet (p : Nat) : Nat × Nat × Nat × Int :=
  let pix := (p &&& 0x0000700000000000) >>> 44
  let col := ((p &&& 0x0FE0000000000000) >>> 52) + (pix >>> 2)
  let row := ((p &&& 0x001F800000000000) >>> 45) + (pix &&& 0x3)
  let tot := ((p >>> 20) &&& 0x3FF) * 25
  let tmp := u64not (p >>> 16) &&& 0xF
  let coa := (((p >>> 30) &&& 0x3FFF) <<< 4 ||| tmp) * 25000
  let toa := (p &&& 0xFFFF) * 409600000 + (coa >>> 4)
  (col % 256, row % 256, tot % 4294967296, i64_of_u64 toa)

/-- reader.rs `parse_tdc_packet`: extracts `(tdc_ps, trigger_number)`.
`expansion_time` reproduces the source's `u64` `wrapping_sub(1)` followed by
`<< 9` (both reduced modulo `2 ^ 64`). -/
def parse_tdc_packet (p : Nat) : Int × Nat :=
  let trigger_number := (p >>> 44) &&& 0x0FFF
  let coarsetime := (p >>> 12) &&& 0xFFFFFFFF
  let expansion_time := ((p >>> 5 &&& 0xF) + 18446744073709551615) % 18446744073709551616
  let expansion_time := (expansion_time <<< 9) % 18446744073709551616
  let finetime := expansion_time / 12
  let trigtime := (p &&& 0x0000000000000E00) ||| (finetime &&& 0x00000000000001FF)
  let add_bit : Nat := if expansion_time % 12 = 0 ∧ expansion_time < 1023 then 0 else 1
  let tdc := (coarsetime * 1000 + (trigtime * 1000) / 4096) * 25
  (i64_of_u64 (tdc + add_bit), trigger_number)

/-- reader.rs `roll`: returns 1 when the ToA rollover counter must advance. -/
def roll (toa ptoa hrol tdc trol : Int) : Int :=
  if toa + CHECK < ptoa ∧ (toa + (hrol + 1) * HIT_LIMIT) - (tdc + trol * TDC_LIMIT) < ROLL
  then 1 else 0

/-- hit.rs `Hit`: `toa` is `i64`; the remaining integer fields are unsigned
(`u32`/`u16`/`u8`) and kept as `Nat`. -/
structure Hit where
  toa : Int
  tot : Nat
  index : Nat
  label : Nat
  size : Nat
  col : Nat
  row : Nat
  col_offset : Nat
  row_offset : Nat
  deriving Repr, DecidableEq

/-- hit.rs `Hit::new`. -/
def Hit.new (index : Nat) (toa : Int) (tot : Nat) (col : Nat) (row : Nat) : Hit :=
  { index, toa, tot, col, row, label := 0, size := 0, col_offset := 0, row_offset := 0 }

/-- hit.rs `Hit::to_hit_packet`.  `(self.toa % HIT_LIMIT) as u64` is the
truncating `i64` remainder followed by the two's-complement cast. -/
def Hit.to_hit_packet (h : Hit) : Nat :=
  let header := 0xB <<< 60
  let toa := ((h.toa.tmod HIT_LIMIT).emod 18446744073709551616).toNat
  let pix := ((h.col % 2) <<< 2) ||| (h.row % 4)
  let col_bits := (h.col - pix / 4) <<< 52
  let row_bits := (h.row - (pix &&& 0x3)) <<< 45
  let tot_bits := ((h.tot / 25) % 1024) <<< 20
  let global_time := toa / 409600000
  let remainder := (toa % 409600000) / (25000 / 16)
  let remainder := remainder - remainder / 3125
  let fta_bit := (u64not remainder &&& 0xF) <<< 16
  let cta_bit := ((remainder &&& 0xFFFFFFFFFFFFFFF0) >>> 4) <<< 30
  header ||| col_bits ||| row_bits ||| (pix <<< 44) ||| cta_bit ||| tot_bits ||| fta_bit |||
    global_time

/-- hit.rs `Hit::to_blob_packet`.  Rust `<<` binds tighter than `&`, so the
source's `tot_coarse` masks with `0x00FF_FFFF << 16`. -/
def Hit.to_blob_packet (h : Hit) : Nat :=
  let header := 0xCA <<< 56
  let col_offset_bits := h.col_offset <<< 48
  let row_offset_bits := h.row_offset <<< 40
  let tot_coarse := (h.tot / 1024) &&& (0x00FFFFFF <<< 16)
  let size := h.size
  header ||| col_offset_bits ||| row_offset_bits ||| tot_coarse ||| size

/-- hit.rs `Hit::update_with_blob_packet` (the `u32` addition is reduced
modulo `2 ^ 32` as in the source's release build). -/
def Hit.update_with_blob_packet (h : Hit) (packet : Nat) : Hit :=
  { h with
    tot := (h.tot + ((packet >>> 16) &&& 0x00FFFFFF) * (1024 * 25)) % 4294967296
    col_offset := (packet >>> 48) &&& 0xFF
    row_offset := (packet >>> 40) &&& 0xFF
    size := packet &&& 0xFFFF }

/-- pulse.rs `Pulse`. -/
structure Pulse where
  time : Int
  hits : List Hit
  triggers : Nat
  clusters : Nat
  deriving Repr, DecidableEq

/-- pulse.rs `Pulse::default`. -/
def Pulse.default : Pulse := { time := 0, hits := [], triggers := 0, clusters := 0 }

/-- pulse.rs `Pulse::add_hit`: appends a fresh hit indexed by the current
length of the hit list. -/
def Pulse.add_hit (p : Pulse) (toa : Int) (tot col row : Nat) : Pulse :=
  { p with hits := p.hits ++ [Hit.new p.hits.length toa tot col row] }

/-- Replace the last element of a list (the `hits.last_mut()` update site);
the empty case is unreachable because the caller checks it first. -/
def modifyLast (f : Hit → Hit) : List Hit → List Hit
  | [] => []
  | [x] => [f x]
  | x :: y :: xs => x :: modifyLast f (y :: xs)

/-- reader.rs `TPX3Reader`: the mutable decoder state (file and buffer
bookkeeping abstracted away; the packet list plays the role of the file). -/
structure RState where
  trolls : Int
  hrolls : Int
  ptdc : Int
  ptoa : Int
  ptri : Nat
  pulse : Pulse
  deriving Repr

/-- reader.rs `TPX3Reader::new`: the initial decoder state. -/
def RState.init : RState :=
  { trolls := 0, hrolls := 0, ptdc := 0, ptoa := 0, ptri := 0, pulse := Pulse.default }

/-- One iteration of the packet match inside `TPX3Reader::next`.  Returns
`none` on the panicking paths (blob packet with no preceding hit, or an
unrecognised header that is not a `TPX3` file chunk header).  On a TDC
packet that closes a pulse, the fresh pulse receives the `time`/`triggers`
assignment performed at the top of the following `next()` call. -/
def stepPacket (s : RState) (p : Nat) : Option (RState × Option Pulse) :=
  if p >>> 60 = 0x6 then
    let (tdc, trigger) := parse_tdc_packet p
    let ptdc := s.ptdc
    let trolls := s.trolls + (if tdc < s.ptdc then 1 else 0)
    if ptdc = 0 then
      some ({ s with
              trolls := trolls
              ptri := trigger
              ptdc := tdc
              pulse := Pulse.default }, none)
    else
      some ({ s with
              trolls := trolls
              ptri := trigger
              ptdc := tdc
              pulse := { time := tdc + trolls * TDC_LIMIT, hits := [], triggers := trigger,
                         clusters := 0 } },
            some s.pulse)
  else if p >>> 60 = 0xB then
    let (col, row, tot, rtoa) := parse_hit_packet p
    let hrolls := s.hrolls + roll rtoa s.ptoa s.hrolls s.ptdc s.trolls
    some ({ s with
            hrolls := hrolls
            ptoa := rtoa
            pulse := s.pulse.add_hit (rtoa + hrolls * HIT_LIMIT) tot col row }, none)
  else if p >>> 60 = 0xC then
    match s.pulse.hits with
    | [] => none
    | _ :: _ =>
      some ({ s with
              pulse := { s.pulse with
                         hits := modifyLast (fun h => h.update_with_blob_packet p) s.pulse.hits } },
            none)
  else if p >>> 60 = 0x4 ∨ p >>> 60 = 0x7 then some (s, none)
  else if p &&& 0xFFFFFFFF = 0x33585054 then some (s, none)
  else none

/-- Drives `stepPacket` over the remaining packets, collecting yielded
pulses; at end of input the non-empty partial pulse is flushed once with the
`time`/`triggers` assignment from the top of `next()`.  A panic truncates
the yielded sequence. -/
def runReader : RState → List Nat → List Pulse
  | s, [] =>
    if s.pulse.hits.isEmpty then []
    else [{ s.pulse with time := s.ptdc + s.trolls * TDC_LIMIT, triggers := s.ptri }]
  | s, p :: ps =>
    match stepPacket s p with
    | none => []
    | some (s', none) => runReader s' ps
    | some (s', some pl) => pl :: runReader s' ps

/-- reader.rs `TPX3Reader` as a pure function: the stream of pulses decoded
from a packet list held in a single read buffer. -/
def tpx3ReaderRun (packets : List Nat) : List Pulse := runReader RState.init packets

/-- reader.rs `TDCReader` state. -/
structure TDCState where
  trolls : Int
  tdc_full : Int
  ptdc : Int
  first_loop : Bool
  deriving Repr

/-- Drives the `TDCReader` loop body over the packets, collecting emitted
TDC times, with the end-of-file flush of the last pending TDC. -/
def runTDC : TDCState → List Nat → List Int
  | s, [] =>
    if s.tdc_full = s.ptdc + s.trolls * TDC_LIMIT then []
    else [s.ptdc + s.trolls * TDC_LIMIT]
  | s, p :: ps =>
    if p >>> 60 = 0x6 then
      let tdc_full := s.ptdc + s.trolls * TDC_LIMIT
      let (tdc, _) := parse_tdc_packet p
      let trolls := s.trolls + (if tdc < s.ptdc then 1 else 0)
      let s' : TDCState := { trolls := trolls, tdc_full := tdc_full, ptdc := tdc, first_loop := false }
      if s.first_loop then runTDC s' ps else tdc_full :: runTDC s' ps
    else runTDC s ps

/-- reader.rs `TDCReader` as a pure function over the packet list. -/
def tdcReaderRun (packets : List Nat) : List Int :=
  runTDC { trolls := 0, tdc_full := 0, ptdc := 0, first_loop := true } packets

/-- Rust `u8` `wrapping_sub` (on field values below 256). -/
def wsub8 (a b : Nat) : Nat := (a % 256 + 256 - b % 256) % 256

/-- hit.rs `Hit::is_proximal`: the `matches!` over the wrapped
column/row differences. -/
def Hit.is_proximal (a other : Hit) : Bool :=
  let dc := wsub8 a.col other.col
  let dr := wsub8 a.row other.row
  (dc = 1 && (dr = 0 || dr = 1 || dr = 255)) ||
  (dc = 0 && (dr = 1 || dr = 255)) ||
  (dc = 255 && (dr = 0 || dr = 1 || dr = 255))

/-- hit.rs `PartialEq for Hit`: equality on `(toa, col, row)` only. -/
def hit_eq (a o : Hit) : Bool := a.toa == o.toa && a.col == o.col && a.row == o.row

/-- Rust `Vec::contains` under `Hit`'s `PartialEq`. -/
def contains_hit (l : List Hit) (x : Hit) : Bool := l.any (fun e => hit_eq e x)

/-- pulse.rs `label_hits`: the candidate pre-filter for a seed `hit` over
the snapshot `ohits` (time gate, unlabelled, 15-wide coarse box). -/
def candidate_filter (hit o : Hit) : Bool :=
  decide ((hit.toa - o.toa).natAbs < 1000000) && (o.label == 0) &&
  decide (((hit.col : Int) - (o.col : Int)).natAbs < 15) &&
  decide (((hit.row : Int) - (o.row : Int)).natAbs < 15)

/-- pulse.rs `label_hits`: the flood-fill `while !active.is_empty()` loop.
`active` is the stack (head = Rust's vector end), `checked` accumulates the
popped hits in pop order.  The fuel argument strictly exceeds the number of
loop iterations: each `(toa, col, row)` class enters `active` at most once
(it is blocked while on `active` and forever once in `checked`), so pops
are bounded by `subset.length + 1`. -/
def floodLoop (subset : List Hit) : Nat → List Hit → List Hit → List Hit
  | 0, _, checked => checked
  | _ + 1, [], checked => checked
  | fuel + 1, check :: act, checked =>
    let act' := subset.foldl
      (fun a h =>
        if h.is_proximal check && !(contains_hit checked h || contains_hit a h)
        then h :: a else a) act
    floodLoop subset fuel act' (checked ++ [check])

/-- Write `label := lab` at position `i` (`self.hits[check.index].label =
current_label`; the index is always in range for decoder-built pulses). -/
def setLabel : List Hit → Nat → Nat → List Hit
  | [], _, _ => []
  | h :: t, 0, lab => { h with label := lab } :: t
  | h :: t, n + 1, lab => h :: setLabel t n lab

/-- Apply the flood fill's label writes (all with the same label value) at
the `index` field of each popped hit. -/
def apply_labels (hits : List Hit) (popped : List Hit) (lab : Nat) : List Hit :=
  popped.foldl (fun hs c => setLabel hs c.index lab) hits

/-- pulse.rs `label_hits`: the outer `for i in 0..self.hits.len()` loop.
State is the current hit list and `current_label`. -/
def label_hits_go (ohits : List Hit) : List Nat → List Hit × Nat → List Hit × Nat
  | [], st => st
  | i :: is, (hits, cl) =>
    match hits.get? i with
    | none => label_hits_go ohits is (hits, cl)
    | some hit =>
      if hit.label = 0 then
        let subset := ohits.filter (fun o => candidate_filter hit o)
        let popped := floodLoop subset (subset.length + 2) [hit] []
        label_hits_go ohits is (apply_labels hits popped cl, cl + 1)
      else label_hits_go ohits is (hits, cl)

/-- pulse.rs `Pulse::label_hits`.  `ohits` is the pre-loop clone of the hit
list; `current_label` starts at 1 and `clusters` is its final value minus
one.  (`current_label` is a `u16` in the source; theorems about this
function restrict to pulses small enough that it cannot wrap.) -/
def Pulse.label_hits (p : Pulse) : Pulse :=
  let ohits := p.hits
  let st := label_hits_go ohits (List.range p.hits.length) (p.hits, 1)
  { p with hits := st.1, clusters := st.2 - 1 }

/-- Rust `f64 as u8`: saturating cast, idealised over `ℚ` (NaN from a 0/0
mean also lands on 0 here because `ℚ` division by zero is 0). -/
def f64_as_u8 (q : ℚ) : Nat :=
  if q ≤ 0 then 0 else if 255 ≤ q then 255 else q.floor.toNat

/-- pulse.rs `Pulse::centroid`: the body of `for i in 1..=self.clusters`,
one step per cluster id.  Empty clusters are skipped without advancing
`counter`.  `f64` weighted means are idealised over `ℚ`; `cluster.len() as
u16` keeps its `% 65536` reduction. -/
def centroid_step (phits : List Hit) (acc : List Hit × Nat) (i : Nat) : List Hit × Nat :=
  let (hs, counter) := acc
  let cluster := phits.filter (fun h => h.label == i)
  let size := cluster.length % 65536
  if size = 0 then acc
  else
    let counter := counter + 1
    let tot := ((cluster.map (fun h => h.tot)).sum) % 4294967296
    let div : ℚ := (tot : ℚ)
    let mean_row := ((cluster.map (fun h => (h.row : ℚ) * (h.tot : ℚ))).sum) / div
    let mean_col := ((cluster.map (fun h => (h.col : ℚ) * (h.tot : ℚ))).sum) / div
    let newHit : Hit :=
      { toa := ((cluster.map (fun h => h.toa)).min?).getD 0
        tot := tot
        col := f64_as_u8 mean_col
        row := f64_as_u8 mean_row
        index := counter % 4294967296
        label := (counter + 1) % 65536
        size := size
        col_offset := f64_as_u8 ((mean_col - (mean_col.floor : ℚ)) * 255)
        row_offset := f64_as_u8 ((mean_row - (mean_row.floor : ℚ)) * 255) }
    (hs ++ [newHit], counter)

/-- pulse.rs `Pulse::centroid`. -/
def Pulse.centroid (p : Pulse) : Pulse :=
  let st := ((List.range p.clusters).map (fun i => i + 1)).foldl (centroid_step p.hits) ([], 0)
  { time := p.time, hits := st.1, triggers := p.triggers, clusters := st.2 }

/-- image.rs `betwix`: branch-free window check under `u64` wrap-around
(`pt ≥ ptw` at every call site, matching the source's `unchecked_sub`). -/
def betwix (v pt ptw : Nat) : Bool :=
  (v + 18446744073709551616 - (pt - ptw)) % 18446744073709551616 < ptw + ptw

/-- image.rs `times_to_buffers`: number of per-mass buffer increments
produced by hits that already survived the dead-pixel filter and whose
rasterized indices are in bounds; one increment per `(hit, peak)` pair
accepted by `betwix`. -/
def times_to_buffers_increments (tofs : List Nat) (pts : List Nat) (ptw : Nat) : Nat :=
  ((tofs.map (fun t => (pts.filter (fun pt => betwix t pt ptw)).length)).sum)

/-- image.rs `Config` (the `f64` fields idealised over `ℚ`; the memoised
trigonometric fields are carried as opaque rationals). -/
structure Config where
  width : ℚ
  height : ℚ
  rotation : ℚ
  rot_sin : ℚ
  rot_cos : ℚ
  camera_fov : ℚ
  pixels_per_mm : ℚ
  scale_x : ℚ
  scale_y : ℚ
  scale_x_fov : ℚ
  scale_y_fov : ℚ
  tof_pulse_length : Int
  peak_time_window : Int
  deriving Repr, DecidableEq

/-- image.rs `Config::update`, parameterised by the real `sin`/`cos` used
for the memoised rotation fields.  The source assigns
`camera_fov * scale_x * 0.001` to BOTH `scale_x_fov` and `scale_y_fov`. -/
def Config.update (sin cos : ℚ → ℚ) (c : Config) : Config :=
  { c with
    rot_sin := sin c.rotation
    rot_cos := cos c.rotation
    scale_x_fov := c.camera_fov * c.scale_x * (1 / 1000)
    scale_y_fov := c.camera_fov * c.scale_x * (1 / 1000) }

/-- stage.rs `Direction`. -/
inductive Direction where
  | Up
  | Down
  | Left
  | Right
  deriving Repr, DecidableEq

/-- stage.rs `Direction::reverse`. -/
def Direction.reverse : Direction → Direction
  | Direction.Up => Direction.Down
  | Direction.Down => Direction.Up
  | Direction.Left => Direction.Right
  | Direction.Right => Direction.Left

/-- stage.rs `Coord` (`f64` coordinates idealised over `ℚ`). -/
structure Coord where
  x : ℚ
  y : ℚ
  direction : Direction
  deriving Repr, DecidableEq

/-- image.rs `Image::to_pulse_passes`: one iteration of the `for tdc` loop
over the state `(prev_tdc, pulse_rows, row)`. -/
def to_pulse_passes_step (acc : Int × List (List Int) × List Int) (tdc : Int) :
    Int × List (List Int) × List Int :=
  let (prev_tdc, pulse_rows, row) := acc
  if tdc - prev_tdc > 30000000000 ∧ prev_tdc ≠ 0
  then (tdc, pulse_rows ++ [row], [tdc])
  else (tdc, pulse_rows, row ++ [tdc])

/-- image.rs `Image::to_pulse_passes`: splits the TDC stream into passes at
gaps exceeding 30,000,000,000 ps, keeping only the passes completed by a
gap (the row still open at end of stream is not pushed). -/
def to_pulse_passes (tdcs : List Int) : List (List Int) :=
  (tdcs.foldl to_pulse_passes_step (0, [], [])).2.1

/-- image.rs `auto_generate_coordinates`: coordinates for one pass at height
`y` travelling in direction `dir`; `none` models the `ok_or` error exits
for a pass without a first or last TDC. -/
def gen_pass_coords (width : ℚ) (y : ℚ) (dir : Direction) (row : List Int) :
    Option (List Coord) :=
  match row.head?, row.getLast? with
  | some start, some stop =>
    let row_time := stop - start
    some (row.map (fun pulse =>
      let time_in_row := pulse - start
      let row_fraction := (time_in_row : ℚ) / (row_time : ℚ)
      let x := match dir with
        | Direction.Right => row_fraction * width
        | _ => width - row_fraction * width
      { x := x, y := y, direction := dir }))
  | _, _ => none

/-- image.rs `auto_generate_coordinates`: the `for (i, row)` loop over the
passes (zipped here with their `row_y_coords` entries), alternating the
serpentine direction after every pass. -/
def auto_gen_go (width : ℚ) : List (List Int × ℚ) → Direction → Option (List Coord)
  | [], _ => some []
  | (row, y) :: rest, dir =>
    match gen_pass_coords width y dir row with
    | none => none
    | some cs =>
      match auto_gen_go width rest dir.reverse with
      | none => none
      | some cs' => some (cs ++ cs')

/-- image.rs `Image::auto_generate_coordinates` as a pure function of the
TDC time stream.  `row_y_coords` divides by `pass count - 1` over `ℚ`
(where a single pass yields `0/0 = 0` in place of the source's `f64`
NaN — the coordinate count, which the theorems are about, is unaffected). -/
def auto_generate_coordinates (width height : ℚ) (tdcs : List Int) : Option (List Coord) :=
  let pulse_passes := to_pulse_passes tdcs
  let pass_axis_value := height
  let row_y_coords := (List.range pulse_passes.length).map
    (fun y : Nat => ((y : ℚ) / ((pulse_passes.length : ℚ) - 1)) * pass_axis_value)
  auto_gen_go width (pulse_passes.zip row_y_coords) Direction.Right

/-- imzml.rs `IMZMLSpectrum`: the offset/length bookkeeping fields of one
spectrum record. -/
structure IMZMLSpectrum where
  index : Nat
  mz_len : Nat
  mz_offset : Nat
  mz_enc_len : Nat
  int_len : Nat
  int_offset : Nat
  int_enc_len : Nat
  deriving Repr, DecidableEq

/-- imzml.rs `IMZMLMaker::write_spectrum`, restricted to its offset/index
bookkeeping: from the running `(offset, index)` state and the lengths of
the compressed `(mzs, ints)` vectors of one pixel, produce the spectrum
record and the new state.  `mzs_bytes`/`ints_bytes` are the little-endian
`f32`/`i16` encodings, hence 4 and 2 bytes per element. -/
def write_spectrum (st : Nat × Nat) (lens : Nat × Nat) : IMZMLSpectrum × Nat × Nat :=
  let (offset, index) := st
  let (mzLen, intLen) := lens
  let mz_enc_len := 4 * mzLen
  let int_enc_len := 2 * intLen
  ({ index := index
     mz_len := mzLen
     mz_offset := offset
     mz_enc_len := mz_enc_len
     int_len := intLen
     int_offset := offset + mz_enc_len
     int_enc_len := int_enc_len },
   offset + mz_enc_len + int_enc_len, index + 1)

/-- A sequence of `write_spectrum` calls from a given `(offset, index)`
state (the maker starts at `(16, 0)`: `IMZMLMaker::new` sets `offset = 16`
after the 16 UUID bytes). -/
def write_spectra : Nat × Nat → List (Nat × Nat) → List IMZMLSpectrum
  | _, [] => []
  | st, l :: ls =>
    let r := write_spectrum st l
    r.1 :: write_spectra r.2 ls

/-! ### Bit-manipulation helper lemmas -/

theorem and_mask_shift (x m k : Nat) : x &&& (m <<< k) = ((x >>> k) &&& m) <<< k := by
  apply Nat.eq_of_testBit_eq
  intro i
  simp only [Nat.testBit_and, Nat.testBit_shiftLeft, Nat.testBit_shiftRight]
  by_cases h : k ≤ i
  · have : k + (i - k) = i := by omega
    simp [ge_iff_le, h, this, Bool.and_comm, Bool.and_assoc, Bool.and_left_comm]
  · simp [ge_iff_le, h]

theorem and_mask_window (x a b : Nat) : x &&& ((2 ^ a - 1) <<< b) = x / 2 ^ b % 2 ^ a * 2 ^ b := by
  rw [and_mask_shift, Nat.shiftRight_eq_div_pow, Nat.and_pow_two_sub_one_eq_mod,
    Nat.shiftLeft_eq]

theorem mul_pow_shiftRight_of_le (y : Nat) {b s : Nat} (h : s ≤ b) :
    (y * 2 ^ b) >>> s = y * 2 ^ (b - s) := by
  obtain ⟨c, rfl⟩ : ∃ c, b = c + s := ⟨b - s, by omega⟩
  rw [Nat.shiftRight_eq_div_pow, pow_add, ← Nat.mul_assoc,
    Nat.mul_div_cancel _ (Nat.pos_pow_of_pos s (by norm_num)), Nat.add_sub_cancel]

theorem parse_field_pix (p : Nat) : (p &&& 0x0000700000000000) >>> 44 = p / 2 ^ 44 % 8 := by
  rw [show (0x0000700000000000 : Nat) = (2 ^ 3 - 1) <<< 44 by decide, and_mask_window,
    mul_pow_shiftRight_of_le _ (Nat.le_refl 44)]
  norm_num

theorem parse_field_col (p : Nat) : (p &&& 0x0FE0000000000000) >>> 52 = p / 2 ^ 53 % 128 * 2 := by
  rw [show (0x0FE0000000000000 : Nat) = (2 ^ 7 - 1) <<< 53 by decide, and_mask_window,
    mul_pow_shiftRight_of_le _ (by norm_num : 52 ≤ 53)]
  norm_num

theorem parse_field_row (p : Nat) : (p &&& 0x001F800000000000) >>> 45 = p / 2 ^ 47 % 64 * 4 := by
  rw [show (0x001F800000000000 : Nat) = (2 ^ 6 - 1) <<< 47 by decide, and_mask_window,
    mul_pow_shiftRight_of_le _ (by norm_num : 45 ≤ 47)]
  norm_num

theorem shr_and_window (p : Nat) {m a b s : Nat} (hm : m = (2 ^ a - 1) <<< b) :
    (p >>> s) &&& m = p / 2 ^ (s + b) % 2 ^ a * 2 ^ b := by
  rw [hm, and_mask_window, Nat.shiftRight_eq_div_pow, Nat.div_div_eq_div_mul, ← pow_add]

theorem parse_hit_col_eq (p : Nat) :
    (parse_hit_packet p).1 = ((p >>> 52) &&& 0xFE) + (((p >>> 44) &&& 0x7) >>> 2) := by
  have h1 : (p >>> 52) &&& 0xFE = p / 2 ^ 53 % 128 * 2 := by
    rw [shr_and_window p (show (0xFE : Nat) = (2 ^ 7 - 1) <<< 1 by decide)]
    norm_num
  have h2 : (p >>> 44) &&& 0x7 = p / 2 ^ 44 % 8 := by
    rw [shr_and_window p (show (0x7 : Nat) = (2 ^ 3 - 1) <<< 0 by decide)]
    norm_num
  rw [h1, h2]
  simp only [parse_hit_packet]
  rw [parse_field_col, parse_field_pix]
  rw [Nat.shiftRight_eq_div_pow]
  omega

theorem parse_hit_row_eq (p : Nat) :
    (parse_hit_packet p).2.1 = ((p >>> 45) &&& 0xFC) + (((p >>> 44) &&& 0x7) &&& 0x3) := by
  have h1 : (p >>> 45) &&& 0xFC = p / 2 ^ 47 % 64 * 4 := by
    rw [shr_and_window p (show (0xFC : Nat) = (2 ^ 6 - 1) <<< 2 by decide)]
    norm_num
  have h2 : (p >>> 44) &&& 0x7 = p / 2 ^ 44 % 8 := by
    rw [shr_and_window p (show (0x7 : Nat) = (2 ^ 3 - 1) <<< 0 by decide)]
    norm_num
  have h3 : p / 2 ^ 44 % 8 &&& 0x3 = p / 2 ^ 44 % 8 % 4 := by
    rw [show (0x3 : Nat) = 2 ^ 2 - 1 by decide, Nat.and_pow_two_sub_one_eq_mod]
  rw [h1, h2]
  simp only [parse_hit_packet]
  rw [parse_field_row, parse_field_pix, h3]
  omega

theorem lor_small (a b k : Nat) (h : b < 2 ^ k) : (a <<< k) ||| b = a * 2 ^ k + b := by
  rw [Nat.shiftLeft_eq, Nat.mul_comm, ← Nat.mul_add_lt_is_or h, Nat.mul_comm]

theorem lor_eq_add_of (A b k : Nat) (hA : A % 2 ^ k = 0) (hb : b < 2 ^ k) : A ||| b = A + b := by
  obtain ⟨q, rfl⟩ := Nat.dvd_of_mod_eq_zero hA
  rw [← Nat.mul_add_lt_is_or hb]

theorem toa_u64_of_lt (T : Nat) (h : T < 26843545600000) :
    (((T : Int).tmod HIT_LIMIT).emod 18446744073709551616).toNat = T := by
  have h1 : (T : Int).tmod HIT_LIMIT = (T : Int) := by
    apply Int.tmod_eq_of_lt (by positivity)
    show (T : Int) < HIT_LIMIT
    rw [HIT_LIMIT]
    exact_mod_cast h
  rw [h1]
  show ((T : Int) % 18446744073709551616).toNat = T
  rw [Int.emod_eq_of_lt (by positivity)
    (by exact_mod_cast (by omega : T < 18446744073709551616))]
  exact Int.toNat_ofNat T

theorem or_chain8 (v1 v2 v3 v4 v5 v6 v7 v8 : Nat)
    (b2 : v2 < 2 ^ 60) (m2 : v1 % 2 ^ 60 = 0)
    (b3 : v3 < 2 ^ 53) (m3 : (v1 + v2) % 2 ^ 53 = 0)
    (b4 : v4 < 2 ^ 47) (m4 : (v1 + v2 + v3) % 2 ^ 47 = 0)
    (b5 : v5 < 2 ^ 44) (m5 : (v1 + v2 + v3 + v4) % 2 ^ 44 = 0)
    (b6 : v6 < 2 ^ 30) (m6 : (v1 + v2 + v3 + v4 + v5) % 2 ^ 30 = 0)
    (b7 : v7 < 2 ^ 20) (m7 : (v1 + v2 + v3 + v4 + v5 + v6) % 2 ^ 20 = 0)
    (b8 : v8 < 2 ^ 16) (m8 : (v1 + v2 + v3 + v4 + v5 + v6 + v7) % 2 ^ 16 = 0) :
    v1 ||| v2 ||| v3 ||| v4 ||| v5 ||| v6 ||| v7 ||| v8 =
      v1 + v2 + v3 + v4 + v5 + v6 + v7 + v8 := by
  rw [lor_eq_add_of v1 v2 60 m2 b2, lor_eq_add_of _ v3 53 m3 b3, lor_eq_add_of _ v4 47 m4 b4,
    lor_eq_add_of _ v5 44 m5 b5, lor_eq_add_of _ v6 30 m6 b6, lor_eq_add_of _ v7 20 m7 b7,
    lor_eq_add_of _ v8 16 m8 b8]

theorem and_15_eq_mod (y : Nat) : y &&& 15 = y % 16 := by
  have h := Nat.and_pow_two_sub_one_eq_mod y 4
  norm_num at h
  exact h

theorem remainder_recovers (g cv : Nat) (hcv : cv < 262144) :
    (g * 409600000 + cv * 25000 / 16) % 409600000 / 1562 -
      (g * 409600000 + cv * 25000 / 16) % 409600000 / 1562 / 3125 = cv := by
  have hl : cv * 25000 / 16 = 1562 * cv + cv / 2 := by omega
  rw [hl]
  have hr : (g * 409600000 + (1562 * cv + cv / 2)) % 409600000 = 1562 * cv + cv / 2 := by
    omega
  rw [hr]
  omega

theorem to_hit_packet_fields (a s x c t f g : Nat)
    (ha : a < 128) (hs : s < 64) (hx : x < 8) (hc : c < 16384) (ht : t < 1024)
    (hf : f < 16) (hg : g < 65536) :
    (Hit.new 0 ((g * 409600000 + (c * 16 + (15 - f)) * 25000 / 16 : Nat) : Int)
        (t * 25) (a * 2 + x / 4) (s * 4 + x % 4)).to_hit_packet =
      11 * 2 ^ 60 + a * 2 ^ 53 + s * 2 ^ 47 + x * 2 ^ 44 + c * 2 ^ 30 + t * 2 ^ 20 +
        f * 2 ^ 16 + g := by
  have hT : g * 409600000 + (c * 16 + (15 - f)) * 25000 / 16 < 26843545600000 := by omega
  simp only [Hit.to_hit_packet, Hit.new]
  rw [toa_u64_of_lt _ hT]
  rw [show (25000 / 16 : Nat) = 1562 from rfl]
  rw [show (g * 409600000 + (c * 16 + (15 - f)) * 25000 / 16) / 409600000 = g from by omega]
  rw [remainder_recovers g (c * 16 + (15 - f)) (by omega)]
  rw [show u64not (c * 16 + (15 - f)) &&& 15 = f from by
    rw [and_15_eq_mod, u64not]; omega]
  rw [show (c * 16 + (15 - f)) &&& 18446744073709551600 =
      (c * 16 + (15 - f)) / 2 ^ 4 % 2 ^ 60 * 2 ^ 4 from by
    rw [show (18446744073709551600 : Nat) = (2 ^ 60 - 1) <<< 4 from by decide,
      and_mask_window]]
  rw [mul_pow_shiftRight_of_le _ (Nat.le_refl 4)]
  rw [show (c * 16 + (15 - f)) / 2 ^ 4 % 2 ^ 60 * 2 ^ (4 - 4) = c from by
    norm_num
    omega]
  rw [show (a * 2 + x / 4) % 2 = x / 4 from by omega]
  rw [show (s * 4 + x % 4) % 4 = x % 4 from by omega]
  rw [lor_small (x / 4) (x % 4) 2 (by omega)]
  rw [show x / 4 * 2 ^ 2 + x % 4 = x from by omega]
  rw [show a * 2 + x / 4 - x / 4 = a * 2 from by omega]
  rw [show x &&& 3 = x % 4 from by
    have h := Nat.and_pow_two_sub_one_eq_mod x 2
    norm_num at h
    exact h]
  rw [show s * 4 + x % 4 - x % 4 = s * 4 from by omega]
  rw [show t * 25 / 25 % 1024 = t from by omega]
  simp only [Nat.shiftLeft_eq]
  rw [or_chain8 _ _ _ _ _ _ _ _ (by omega) (by omega) (by omega) (by omega) (by omega)
    (by omega) (by omega) (by omega) (by omega) (by omega) (by omega) (by omega) (by omega)
    (by omega)]
  omega

theorem and_3_eq_mod (y : Nat) : y &&& 3 = y % 4 := by
  have h := Nat.and_pow_two_sub_one_eq_mod y 2
  norm_num at h
  exact h

theorem and_1023_eq_mod (y : Nat) : y &&& 1023 = y % 1024 := by
  have h := Nat.and_pow_two_sub_one_eq_mod y 10
  norm_num at h
  exact h

theorem and_16383_eq_mod (y : Nat) : y &&& 16383 = y % 16384 := by
  have h := Nat.and_pow_two_sub_one_eq_mod y 14
  norm_num at h
  exact h

theorem and_65535_eq_mod (y : Nat) : y &&& 65535 = y % 65536 := by
  have h := Nat.and_pow_two_sub_one_eq_mod y 16
  norm_num at h
  exact h

theorem parse_col_eval (p : Nat) :
    (parse_hit_packet p).1 = p / 2 ^ 53 % 128 * 2 + p / 2 ^ 44 % 8 / 4 := by
  simp only [parse_hit_packet]
  rw [parse_field_col, parse_field_pix, Nat.shiftRight_eq_div_pow]
  omega

theorem parse_row_eval (p : Nat) :
    (parse_hit_packet p).2.1 = p / 2 ^ 47 % 64 * 4 + p / 2 ^ 44 % 8 % 4 := by
  simp only [parse_hit_packet]
  rw [parse_field_row, parse_field_pix, and_3_eq_mod]
  omega

theorem parse_tot_eval (p : Nat) :
    (parse_hit_packet p).2.2.1 = p / 2 ^ 20 % 1024 * 25 := by
  simp only [parse_hit_packet]
  rw [and_1023_eq_mod, Nat.shiftRight_eq_div_pow]
  omega

theorem parse_toa_eval (p : Nat) (h64 : p < 2 ^ 64) :
    (parse_hit_packet p).2.2.2 =
      ((p % 65536 * 409600000 +
        (p / 2 ^ 30 % 16384 * 16 + (15 - p / 2 ^ 16 % 16)) * 25000 / 16 : Nat) : Int) := by
  simp only [parse_hit_packet]
  rw [and_65535_eq_mod, and_16383_eq_mod]
  rw [show (p >>> 30) % 16384 = p / 2 ^ 30 % 16384 from by
    rw [Nat.shiftRight_eq_div_pow]]
  rw [show u64not (p >>> 16) &&& 15 = 15 - p / 2 ^ 16 % 16 from by
    rw [and_15_eq_mod, u64not, Nat.shiftRight_eq_div_pow]
    omega]
  rw [lor_small _ _ 4 (by omega)]
  rw [show p / 2 ^ 30 % 16384 * 2 ^ 4 = p / 2 ^ 30 % 16384 * 16 from by norm_num]
  rw [Nat.shiftRight_eq_div_pow, show (2 : Nat) ^ 4 = 16 from by norm_num]
  rw [i64_of_u64, if_pos (by omega)]


/-! ### Claim theorems -/

/-- Claim C1 (counterexample to the hit-level half): for the hit with
`toa = 1` (and zero remaining fields), decoding `to_hit_packet` does not
preserve `toa % HIT_LIMIT`: the decoder returns 0 while `toa % HIT_LIMIT`
is 1, because the encoder quantises `toa` to the 1562.5 ps fine-time grid. -/
theorem c1_counterexample :
    (parse_hit_packet ((Hit.new 0 1 0 0 0).to_hit_packet)).2.2.2 = 0 ∧
    (Hit.new 0 1 0 0 0).toa.tmod HIT_LIMIT = 1 := by
  decide

/-- Claim C1 (amended): for every 64-bit packet `p` with top nibble `0xB`,
re-encoding the hit obtained from `parse_hit_packet` via
`Hit::to_hit_packet` reproduces `p` exactly (the hit-packet layout covers
all 64 bits).  The hit-level restatement holds only for hits whose
`toa % HIT_LIMIT` lies on the decoder's fine-time grid. -/
theorem c1_packet_roundtrip (p : Nat) (h64 : p < 2 ^ 64) (hdr : p >>> 60 = 0xB) :
    (Hit.new 0 (parse_hit_packet p).2.2.2 (parse_hit_packet p).2.2.1 (parse_hit_packet p).1
      (parse_hit_packet p).2.1).to_hit_packet = p := by
  rw [parse_col_eval, parse_row_eval, parse_tot_eval, parse_toa_eval p h64]
  rw [to_hit_packet_fields (p / 2 ^ 53 % 128) (p / 2 ^ 47 % 64) (p / 2 ^ 44 % 8)
    (p / 2 ^ 30 % 16384) (p / 2 ^ 20 % 1024) (p / 2 ^ 16 % 16) (p % 65536)
    (by omega) (by omega) (by omega) (by omega) (by omega) (by omega) (by omega)]
  have hp : p / 2 ^ 60 = 11 := by
    rw [Nat.shiftRight_eq_div_pow] at hdr
    exact hdr
  omega

/-- Witness for C1: the round trip evaluated on the concrete packet
`0xB123456789ABCDEF`. -/
theorem c1_packet_roundtrip_witness :
    (0xB123456789ABCDEF : Nat) < 2 ^ 64 ∧ (0xB123456789ABCDEF : Nat) >>> 60 = 0xB ∧
    (Hit.new 0 (parse_hit_packet 0xB123456789ABCDEF).2.2.2
      (parse_hit_packet 0xB123456789ABCDEF).2.2.1 (parse_hit_packet 0xB123456789ABCDEF).1
      (parse_hit_packet 0xB123456789ABCDEF).2.1).to_hit_packet = 0xB123456789ABCDEF :=
  ⟨by decide, by decide, c1_packet_roundtrip 0xB123456789ABCDEF (by decide) (by decide)⟩

/-- Claim C2 (counterexample): at the hit packet `0xB010000000000000`
(bit 52 set), `parse_hit_packet` returns `col = 0` and `row = 128`, while
the claimed formulas `((p >> 52) & 0x7F) + (pix >> 2)` and
`((p >> 45) & 0x7F) + (pix & 0x3)` give 1 and 0: bit 52 belongs to the
row (super-pixel) field, not the column field. -/
theorem c2_counterexample :
    (parse_hit_packet 0xB010000000000000).1 ≠
      ((0xB010000000000000 >>> 52) &&& 0x7F) +
        (((0xB010000000000000 >>> 44) &&& 0x7) >>> 2) ∧
    (parse_hit_packet 0xB010000000000000).2.1 ≠
      ((0xB010000000000000 >>> 45) &&& 0x7F) +
        (((0xB010000000000000 >>> 44) &&& 0x7) &&& 0x3) := by
  decide

/-- Claim C2 (amended): for every 64-bit packet `p`, `parse_hit_packet`
returns `col = ((p >> 52) & 0xFE) + (pix >> 2)` and
`row = ((p >> 45) & 0xFC) + (pix & 0x3)` with `pix = (p >> 44) & 0x7`
(the masks select bits 53..59 and 47..52 respectively). -/
theorem c2_parse_col_row (p : Nat) :
    (parse_hit_packet p).1 = ((p >>> 52) &&& 0xFE) + (((p >>> 44) &&& 0x7) >>> 2) ∧
    (parse_hit_packet p).2.1 = ((p >>> 45) &&& 0xFC) + (((p >>> 44) &&& 0x7) &&& 0x3) :=
  ⟨parse_hit_col_eq p, parse_hit_row_eq p⟩

/-- `stepPacket` on a hit packet: the explicit successor state. -/
theorem stepPacket_hit (s : RState) (p : Nat) (hdr : p >>> 60 = 0xB) :
    stepPacket s p =
      some ({ s with
              hrolls := s.hrolls + roll (parse_hit_packet p).2.2.2 s.ptoa s.hrolls s.ptdc s.trolls
              ptoa := (parse_hit_packet p).2.2.2
              pulse := s.pulse.add_hit
                ((parse_hit_packet p).2.2.2 +
                  (s.hrolls + roll (parse_hit_packet p).2.2.2 s.ptoa s.hrolls s.ptdc s.trolls) *
                    HIT_LIMIT)
                (parse_hit_packet p).2.2.1 (parse_hit_packet p).1 (parse_hit_packet p).2.1 },
        none) := by
  unfold stepPacket
  rw [hdr]
  rw [if_neg (by decide), if_pos rfl]

/-- Claim C3: processing a hit packet increments `hrolls` exactly when
`toa_raw + CHECK < prev_toa_raw` and
`(toa_raw + (hrolls + 1) * HIT_LIMIT) - (ptdc + trolls * TDC_LIMIT) < ROLL`
with CHECK = 100,000,000,000 ps and ROLL = 26,000,000,000,000 ps, and
leaves it unchanged otherwise.  `ptdc + trolls * TDC_LIMIT` is the open
pulse's rollover-corrected TDC time (`pulse.time` in the claim). -/
theorem c3_hrolls_increment (s : RState) (p : Nat) (hdr : p >>> 60 = 0xB) :
    (stepPacket s p).map (fun r => r.1.hrolls) =
      some (if (parse_hit_packet p).2.2.2 + CHECK < s.ptoa ∧
          ((parse_hit_packet p).2.2.2 + (s.hrolls + 1) * HIT_LIMIT) -
            (s.ptdc + s.trolls * TDC_LIMIT) < ROLL
        then s.hrolls + 1 else s.hrolls) := by
  rw [stepPacket_hit s p hdr]
  show some _ = _
  rw [roll]
  split_ifs with h <;> simp

/-- Witness for C3: the hit packet `0xB123456789ABCDEF` processed from the
initial reader state leaves `hrolls` at 0 (the roll condition fails). -/
theorem c3_hrolls_increment_witness :
    (stepPacket RState.init 0xB123456789ABCDEF).map (fun r => r.1.hrolls) = some 0 := by
  rw [c3_hrolls_increment RState.init 0xB123456789ABCDEF (by decide)]
  decide

/-- Claim C7 (counterexample): with a peak at 1,000,000 ps and half-width
100,000 ps, a ToF of 900,001 ps is accepted by `betwix`
(`900001 - 900000 = 1 < 200000`), so the four listed hits produce 3
buffer increments, not 2. -/
theorem c7_counterexample :
    betwix 900001 1000000 100000 = true ∧
    times_to_buffers_increments [900001, 900002, 1099999, 1100000] [1000000] 100000 ≠ 2 := by
  decide

/-- Claim C7 (amended): with a single peak at 1,000,000 ps and half-width
100,000 ps, the four otherwise-surviving hits at ToF 900,001 (inside),
900,002 (inside), 1,099,999 (inside) and 1,100,000 (outside) produce
exactly 3 per-mass buffer increments; the window is `[900000, 1100000)`. -/
theorem c7_window_increments :
    times_to_buffers_increments [900001, 900002, 1099999, 1100000] [1000000] 100000 = 3 ∧
    betwix 900001 1000000 100000 = true ∧ betwix 900002 1000000 100000 = true ∧
    betwix 1099999 1000000 100000 = true ∧ betwix 1100000 1000000 100000 = false := by
  decide

/-- The configuration exhibiting C8's divergence (`scale_x = 2`,
`scale_y = 3`, `camera_fov = 1`). -/
def c8_failing_config : Config :=
  { width := 0, height := 0, rotation := 0, rot_sin := 0, rot_cos := 0, camera_fov := 1,
    pixels_per_mm := 500, scale_x := 2, scale_y := 3, scale_x_fov := 0, scale_y_fov := 0,
    tof_pulse_length := 0, peak_time_window := 100000 }

/-- Claim C8: `Config::update` assigns `camera_fov * scale_x * 0.001` to
`scale_y_fov` (a copy-paste of the `scale_x_fov` line), so with
`camera_fov = 1`, `scale_x = 2`, `scale_y = 3` the updated `scale_y_fov`
is `2/1000 = 1/500`, not `camera_fov * scale_y * 0.001 = 3/1000`. -/
theorem c8_update_scale_y_fov_uses_scale_x :
    (Config.update id id c8_failing_config).scale_y_fov = (1 / 500 : ℚ) ∧
    (Config.update id id c8_failing_config).scale_y_fov ≠
      (Config.update id id c8_failing_config).camera_fov *
        (Config.update id id c8_failing_config).scale_y * (1 / 1000) := by
  constructor
  · norm_num [Config.update, c8_failing_config]
  · norm_num [Config.update, c8_failing_config]

theorem write_spectra_head (st : Nat × Nat) (ls : List (Nat × Nat)) (r : IMZMLSpectrum)
    (h : (write_spectra st ls).head? = some r) : r.mz_offset = st.1 := by
  cases ls with
  | nil => simp [write_spectra] at h
  | cons l ls =>
    simp only [write_spectra, List.head?_cons, Option.some.injEq] at h
    rw [← h]
    rfl

theorem write_spectra_int_offset (ls : List (Nat × Nat)) : ∀ st : Nat × Nat,
    ∀ r ∈ write_spectra st ls, r.int_offset = r.mz_offset + r.mz_enc_len := by
  induction ls with
  | nil => intro st r hr; simp [write_spectra] at hr
  | cons l ls ih =>
    intro st r hr
    simp only [write_spectra, List.mem_cons] at hr
    rcases hr with hr | hr
    · subst hr; rfl
    · exact ih _ r hr

theorem write_spectra_chain (ls : List (Nat × Nat)) : ∀ st : Nat × Nat,
    List.Chain' (fun r r' => r'.mz_offset = r.int_offset + r.int_enc_len)
      (write_spectra st ls) := by
  induction ls with
  | nil => intro st; exact List.chain'_nil
  | cons l ls ih =>
    intro st
    show List.Chain' _ ((write_spectrum st l).1 :: write_spectra (write_spectrum st l).2 ls)
    apply List.Chain'.cons' (ih _)
    intro y hy
    rw [write_spectra_head _ _ _ hy]
    rfl

/-- Claim C5: across every sequence of `write_spectrum` calls of one
maker (modelled by the lengths of each pixel's compressed vectors), the
first spectrum has `mz_offset = 16`, every spectrum has
`int_offset = mz_offset + mz_enc_len`, and each next spectrum has
`mz_offset` equal to the previous spectrum's `int_offset + int_enc_len`. -/
theorem c5_offsets (lens : List (Nat × Nat)) :
    (∀ r, (write_spectra (16, 0) lens).head? = some r → r.mz_offset = 16) ∧
    (∀ r ∈ write_spectra (16, 0) lens, r.int_offset = r.mz_offset + r.mz_enc_len) ∧
    List.Chain' (fun r r' => r'.mz_offset = r.int_offset + r.int_enc_len)
      (write_spectra (16, 0) lens) :=
  ⟨fun r h => write_spectra_head _ _ r h, write_spectra_int_offset lens _,
    write_spectra_chain lens _⟩

/-- Witness for C5: two spectra of 2 and 1 values; the first record sits at
`mz_offset = 16`. -/
theorem c5_offsets_witness :
    (write_spectra (16, 0) [(2, 2), (1, 1)]).head? =
      some { index := 0, mz_len := 2, mz_offset := 16, mz_enc_len := 8, int_len := 2,
             int_offset := 24, int_enc_len := 4 } ∧
    ({ index := 0, mz_len := 2, mz_offset := 16, mz_enc_len := 8, int_len := 2,
       int_offset := 24, int_enc_len := 4 } : IMZMLSpectrum).mz_offset = 16 := by
  refine ⟨by decide, ?_⟩
  exact (c5_offsets [(2, 2), (1, 1)]).1 _ (by decide)

/-- `stepPacket` on the first TDC packet (previous raw TDC still 0). -/
theorem stepPacket_tdc_first (s : RState) (p : Nat) (t : Int) (tri : Nat)
    (hdr : p >>> 60 = 0x6) (hpt : parse_tdc_packet p = (t, tri)) (h0 : s.ptdc = 0) :
    stepPacket s p =
      some ({ s with
              trolls := s.trolls + (if t < s.ptdc then 1 else 0)
              ptri := tri
              ptdc := t
              pulse := Pulse.default }, none) := by
  unfold stepPacket
  rw [hdr, if_pos rfl, hpt]
  show (if s.ptdc = 0 then _ else _) = _
  rw [if_pos h0]

/-- `stepPacket` on a pulse-closing TDC packet. -/
theorem stepPacket_tdc_next (s : RState) (p : Nat) (t : Int) (tri : Nat)
    (hdr : p >>> 60 = 0x6) (hpt : parse_tdc_packet p = (t, tri)) (h0 : s.ptdc ≠ 0) :
    stepPacket s p =
      some ({ s with
              trolls := s.trolls + (if t < s.ptdc then 1 else 0)
              ptri := tri
              ptdc := t
              pulse := { time := t + (s.trolls + (if t < s.ptdc then 1 else 0)) * TDC_LIMIT
                         hits := []
                         triggers := tri
                         clusters := 0 } },
        some s.pulse) := by
  unfold stepPacket
  rw [hdr, if_pos rfl, hpt]
  show (if s.ptdc = 0 then _ else _) = _
  rw [if_neg h0]

/-- All non-TDC packets either panic or leave `pulse.time`, `ptdc` and
`trolls` unchanged. -/
theorem stepPacket_other (s : RState) (p : Nat) (h6 : p >>> 60 ≠ 0x6) :
    stepPacket s p = none ∨ ∃ s', stepPacket s p = some (s', none) ∧
      s'.pulse.time = s.pulse.time ∧ s'.ptdc = s.ptdc ∧ s'.trolls = s.trolls := by
  unfold stepPacket
  rw [if_neg h6]
  by_cases hB : p >>> 60 = 0xB
  · right
    rw [if_pos hB]
    exact ⟨_, rfl, rfl, rfl, rfl⟩
  · rw [if_neg hB]
    by_cases hC : p >>> 60 = 0xC
    · rw [if_pos hC]
      cases hhits : s.pulse.hits with
      | nil => left; rfl
      | cons a l => right; exact ⟨_, rfl, rfl, rfl, rfl⟩
    · rw [if_neg hC]
      by_cases h47 : p >>> 60 = 0x4 ∨ p >>> 60 = 0x7
      · right; rw [if_pos h47]; exact ⟨_, rfl, rfl, rfl, rfl⟩
      · rw [if_neg h47]
        by_cases hT : p &&& 0xFFFFFFFF = 0x33585054
        · right; rw [if_pos hT]; exact ⟨_, rfl, rfl, rfl, rfl⟩
        · left; rw [if_neg hT]

theorem runReader_nil_empty (s : RState) (he : s.pulse.hits.isEmpty) :
    runReader s [] = [] := by
  unfold runReader
  rw [if_pos he]

theorem runReader_nil_flush (s : RState) (he : ¬ s.pulse.hits.isEmpty) :
    runReader s [] =
      [{ s.pulse with time := s.ptdc + s.trolls * TDC_LIMIT, triggers := s.ptri }] := by
  unfold runReader
  rw [if_neg he]

theorem runReader_cons_none (s : RState) (p : Nat) (ps : List Nat)
    (h : stepPacket s p = none) : runReader s (p :: ps) = [] := by
  conv_lhs => unfold runReader
  rw [h]

theorem runReader_cons_skip (s s' : RState) (p : Nat) (ps : List Nat)
    (h : stepPacket s p = some (s', none)) : runReader s (p :: ps) = runReader s' ps := by
  conv_lhs => unfold runReader
  rw [h]

theorem runReader_cons_emit (s s' : RState) (p : Nat) (ps : List Nat) (pl : Pulse)
    (h : stepPacket s p = some (s', some pl)) :
    runReader s (p :: ps) = pl :: runReader s' ps := by
  conv_lhs => unfold runReader
  rw [h]

theorem TDC_LIMIT_pos : (0 : Int) < TDC_LIMIT := by
  rw [TDC_LIMIT]
  omega

/-- Monotonicity invariant for the reader: under positive in-range TDC
decodes, the yielded pulse times form a non-decreasing chain, and the open
pulse's time lower-bounds the first yielded time. -/
theorem runReader_mono (ps : List Nat) : ∀ s : RState,
    (∀ p ∈ ps, p >>> 60 = 0x6 →
      0 < (parse_tdc_packet p).1 ∧ (parse_tdc_packet p).1 < TDC_LIMIT) →
    0 ≤ s.trolls → 0 ≤ s.ptdc → s.ptdc < TDC_LIMIT →
    s.pulse.time ≤ s.ptdc + s.trolls * TDC_LIMIT →
    (s.ptdc = 0 → s.pulse.time ≤ 0) →
    List.Chain' (· ≤ ·) ((runReader s ps).map Pulse.time) ∧
    (∀ y ∈ ((runReader s ps).map Pulse.time).head?, s.pulse.time ≤ y) := by
  induction ps with
  | nil =>
    intro s _ htr hp0 hpl htime _
    by_cases he : s.pulse.hits.isEmpty
    · rw [runReader_nil_empty s he]
      exact ⟨List.chain'_nil, by intro y hy; simp at hy⟩
    · rw [runReader_nil_flush s he]
      refine ⟨List.chain'_singleton _, ?_⟩
      intro y hy
      simp only [List.map_cons, List.map_nil, List.head?_cons, Option.mem_def,
        Option.some.injEq] at hy
      rw [← hy]
      exact htime
  | cons p ps ih =>
    intro s hok htr hp0 hpl htime h0time
    have hoks : ∀ q ∈ ps, q >>> 60 = 0x6 →
        0 < (parse_tdc_packet q).1 ∧ (parse_tdc_packet q).1 < TDC_LIMIT :=
      fun q hq => hok q (List.mem_cons_of_mem p hq)
    have hLpos := TDC_LIMIT_pos
    have htrL : (0 : Int) ≤ s.trolls * TDC_LIMIT := mul_nonneg htr (le_of_lt hLpos)
    by_cases h6 : p >>> 60 = 0x6
    · rcases hpt : parse_tdc_packet p with ⟨t, tri⟩
      have hbounds := hok p (List.mem_cons_self p ps) h6
      rw [hpt] at hbounds
      obtain ⟨htpos, htlt⟩ := hbounds
      by_cases hz : s.ptdc = 0
      · rw [runReader_cons_skip _ _ _ _ (stepPacket_tdc_first s p t tri h6 hpt hz)]
        have hnlt : ¬ (t < s.ptdc) := by omega
        have h := ih { s with
            trolls := s.trolls + (if t < s.ptdc then 1 else 0)
            ptri := tri
            ptdc := t
            pulse := Pulse.default } hoks
          (by
            show (0:Int) ≤ s.trolls + (if t < s.ptdc then 1 else 0)
            rw [if_neg hnlt]
            omega)
          (by show (0:Int) ≤ t; omega)
          (by show t < TDC_LIMIT; exact htlt)
          (by
            show (Pulse.default).time ≤ t + (s.trolls + (if t < s.ptdc then 1 else 0)) * TDC_LIMIT
            rw [if_neg hnlt, add_zero]
            show (0 : Int) ≤ t + s.trolls * TDC_LIMIT
            omega)
          (fun _ => by show (Pulse.default).time ≤ 0; exact le_refl 0)
        refine ⟨h.1, ?_⟩
        intro y hy
        have hy2 := h.2 y hy
        have hts : s.pulse.time ≤ 0 := h0time hz
        have hred : ({ s with
            trolls := s.trolls + (if t < s.ptdc then 1 else 0)
            ptri := tri
            ptdc := t
            pulse := Pulse.default } : RState).pulse.time = 0 := rfl
        omega
      · rw [runReader_cons_emit _ _ _ _ _ (stepPacket_tdc_next s p t tri h6 hpt hz)]
        have hnew : s.pulse.time ≤ t + (s.trolls + (if t < s.ptdc then 1 else 0)) * TDC_LIMIT := by
          by_cases hlt : t < s.ptdc
          · rw [if_pos hlt, add_mul, one_mul]
            omega
          · rw [if_neg hlt, add_zero]
            omega
        have h := ih { s with
            trolls := s.trolls + (if t < s.ptdc then 1 else 0)
            ptri := tri
            ptdc := t
            pulse := { time := t + (s.trolls + (if t < s.ptdc then 1 else 0)) * TDC_LIMIT
                       hits := []
                       triggers := tri
                       clusters := 0 } } hoks
          (by
            show (0:Int) ≤ s.trolls + (if t < s.ptdc then 1 else 0)
            split_ifs <;> omega)
          (by show (0:Int) ≤ t; omega)
          (by show t < TDC_LIMIT; exact htlt)
          (by
            show t + (s.trolls + (if t < s.ptdc then 1 else 0)) * TDC_LIMIT ≤
              t + (s.trolls + (if t < s.ptdc then 1 else 0)) * TDC_LIMIT
            exact le_refl _)
          (by
            intro hc
            have hc2 : t = 0 := hc
            omega)
        refine ⟨?_, ?_⟩
        · rw [List.map_cons]
          apply List.Chain'.cons' h.1
          intro y hy
          have hy2 := h.2 y hy
          exact le_trans hnew hy2
        · intro y hy
          simp only [List.map_cons, List.head?_cons, Option.mem_def, Option.some.injEq] at hy
          omega
    · rcases stepPacket_other s p h6 with hnone | ⟨s', hs', htimeq, hptdcq, htrollsq⟩
      · rw [runReader_cons_none _ _ _ hnone]
        exact ⟨List.chain'_nil, by intro y hy; simp at hy⟩
      · rw [runReader_cons_skip _ _ _ _ hs']
        have h := ih s' hoks (htrollsq ▸ htr) (hptdcq ▸ hp0) (hptdcq ▸ hpl)
          (by rw [htimeq, hptdcq, htrollsq]; exact htime)
          (by rw [htimeq, hptdcq]; exact h0time)
        refine ⟨h.1, ?_⟩
        intro y hy
        have hy2 := h.2 y hy
        omega

/-- Claim C10 (counterexample): all five TDC packets decode below
`TDC_LIMIT` (the third decodes to exactly 0), yet the yielded pulse times
are `[0, 50251, 0]`: the zero-decoding TDC re-triggers the first-TDC
branch, which discards the open pulse and resets the fresh pulse's time
to 0. -/
theorem c10_counterexample :
    (∀ p ∈ [0x6000000000001040, 0x6000000000002040, 0x6000000000000020,
        0x6000000000001040, 0x6000000000002040],
      p >>> 60 = 0x6 → (parse_tdc_packet p).1 < TDC_LIMIT) ∧
    (tpx3ReaderRun [0x6000000000001040, 0x6000000000002040, 0x6000000000000020,
        0x6000000000001040, 0x6000000000002040]).map Pulse.time = [0, 50251, 0] ∧
    ¬ List.Chain' (· ≤ ·)
      ((tpx3ReaderRun [0x6000000000001040, 0x6000000000002040, 0x6000000000000020,
          0x6000000000001040, 0x6000000000002040]).map Pulse.time) := by
  refine ⟨by decide, by decide, ?_⟩
  intro hchain
  rw [show (tpx3ReaderRun [0x6000000000001040, 0x6000000000002040, 0x6000000000000020,
      0x6000000000001040, 0x6000000000002040]).map Pulse.time = [0, 50251, 0] from by decide]
    at hchain
  rcases hchain with _ | ⟨h1, _ | ⟨h2, _⟩⟩
  omega

/-- Claim C10 (amended): for every input stream whose TDC packets each
decode to a strictly positive time below `TDC_LIMIT`, the `time` fields of
the pulses yielded by the reader are non-decreasing. -/
theorem c10_times_monotone (packets : List Nat)
    (h : ∀ p ∈ packets, p >>> 60 = 0x6 →
      0 < (parse_tdc_packet p).1 ∧ (parse_tdc_packet p).1 < TDC_LIMIT) :
    List.Chain' (· ≤ ·) ((tpx3ReaderRun packets).map Pulse.time) :=
  (runReader_mono packets RState.init h (le_refl 0) (le_refl 0) TDC_LIMIT_pos
    (by show (0:Int) ≤ 0 + 0 * TDC_LIMIT; simp)
    (fun _ => le_refl 0)).1

/-- Witness for C10: a two-TDC stream with positive decodes yields
monotone pulse times. -/
theorem c10_times_monotone_witness :
    (∀ p ∈ [0x6000000000001040, 0x6000000000002040], p >>> 60 = 0x6 →
      0 < (parse_tdc_packet p).1 ∧ (parse_tdc_packet p).1 < TDC_LIMIT) ∧
    List.Chain' (· ≤ ·)
      ((tpx3ReaderRun [0x6000000000001040, 0x6000000000002040]).map Pulse.time) :=
  ⟨by decide, c10_times_monotone [0x6000000000001040, 0x6000000000002040] (by decide)⟩

theorem to_pulse_passes_fold_inv : ∀ (ts : List Int) (prev : Int) (rows : List (List Int))
    (row : List Int),
    (ts.foldl to_pulse_passes_step (prev, rows, row)).2.1.flatten ++
      (ts.foldl to_pulse_passes_step (prev, rows, row)).2.2 = rows.flatten ++ row ++ ts := by
  intro ts
  induction ts with
  | nil => intro prev rows row; simp
  | cons t ts ih =>
    intro prev rows row
    rw [List.foldl_cons]
    show ((ts.foldl to_pulse_passes_step (to_pulse_passes_step (prev, rows, row) t)).2.1.flatten ++ _ = _)
    by_cases hc : t - prev > 30000000000 ∧ prev ≠ 0
    · rw [show to_pulse_passes_step (prev, rows, row) t = (t, rows ++ [row], [t]) from by
        unfold to_pulse_passes_step
        show (if t - prev > 30000000000 ∧ prev ≠ 0 then _ else _) = _
        rw [if_pos hc]]
      rw [ih t (rows ++ [row]) [t]]
      simp
    · rw [show to_pulse_passes_step (prev, rows, row) t = (t, rows, row ++ [t]) from by
        unfold to_pulse_passes_step
        show (if t - prev > 30000000000 ∧ prev ≠ 0 then _ else _) = _
        rw [if_neg hc]]
      rw [ih t rows (row ++ [t])]
      simp

theorem to_pulse_passes_join (tdcs : List Int) :
    ∃ rest, (to_pulse_passes tdcs).flatten ++ rest = tdcs := by
  refine ⟨(tdcs.foldl to_pulse_passes_step (0, [], [])).2.2, ?_⟩
  have h := to_pulse_passes_fold_inv tdcs 0 [] []
  simpa [to_pulse_passes] using h

theorem gen_pass_coords_length (w y : ℚ) (dir : Direction) (row : List Int)
    (cs : List Coord) (h : gen_pass_coords w y dir row = some cs) :
    cs.length = row.length := by
  unfold gen_pass_coords at h
  rcases hh : row.head? with _ | start
  · rw [hh] at h
    exact absurd h (by simp)
  · rcases hl : row.getLast? with _ | stop
    · rw [hh, hl] at h
      exact absurd h (by simp)
    · rw [hh, hl] at h
      simp only [Option.some.injEq] at h
      rw [← h, List.length_map]

theorem auto_gen_go_length (w : ℚ) : ∀ (l : List (List Int × ℚ)) (dir : Direction)
    (cs : List Coord), auto_gen_go w l dir = some cs →
    cs.length = (l.map (fun pr => pr.1.length)).sum := by
  intro l
  induction l with
  | nil =>
    intro dir cs h
    simp only [auto_gen_go, Option.some.injEq] at h
    rw [← h]
    simp
  | cons pr rest ih =>
    intro dir cs h
    rcases pr with ⟨row, y⟩
    simp only [auto_gen_go] at h
    rcases hg : gen_pass_coords w y dir row with _ | cs1
    · rw [hg] at h
      exact absurd h (by simp)
    · rw [hg] at h
      rcases hr : auto_gen_go w rest dir.reverse with _ | cs2
      · rw [hr] at h
        exact absurd h (by simp)
      · rw [hr] at h
        simp only [Option.some.injEq] at h
        rw [← h, List.length_append, gen_pass_coords_length w y dir row cs1 hg,
          ih dir.reverse cs2 hr]
        simp

/-- Claim C9 (amended): coordinate generation returns one `Coord` per TDC
of each pass retained by `to_pulse_passes` (all passes except the final,
unpushed one), and those passes are an in-order prefix of the TDC stream;
the pass delimiter is an inter-TDC gap exceeding 3 * 10^10 ps (30 ms). -/
theorem c9_coords (w h : ℚ) (tdcs : List Int) (coords : List Coord)
    (hc : auto_generate_coordinates w h tdcs = some coords) :
    coords.length = ((to_pulse_passes tdcs).map List.length).sum ∧
    ∃ rest, (to_pulse_passes tdcs).flatten ++ rest = tdcs := by
  refine ⟨?_, to_pulse_passes_join tdcs⟩
  unfold auto_generate_coordinates at hc
  have h1 := auto_gen_go_length w _ _ _ hc
  rw [h1]
  have hlen : (to_pulse_passes tdcs).length ≤
      ((List.range (to_pulse_passes tdcs).length).map
        (fun y : Nat => ((y : ℚ) / (((to_pulse_passes tdcs).length : ℚ) - 1)) * h)).length := by
    rw [List.length_map, List.length_range]
  have h2 : ((to_pulse_passes tdcs).zip
      ((List.range (to_pulse_passes tdcs).length).map
        (fun y : Nat => ((y : ℚ) / (((to_pulse_passes tdcs).length : ℚ) - 1)) * h))).map
      (fun pr => pr.1.length) =
      (((to_pulse_passes tdcs).zip
        ((List.range (to_pulse_passes tdcs).length).map
          (fun y : Nat => ((y : ℚ) / (((to_pulse_passes tdcs).length : ℚ) - 1)) * h))).map
        Prod.fst).map List.length := by
    rw [List.map_map]
    rfl
  rw [h2, List.map_fst_zip _ _ hlen]

/-- Claim C9 (counterexample): a stream of six TDC packets whose decoded
times form three passes of two TDCs each, separated by 40 ms gaps (well
under 30 s), yields five pulses but only four coordinates: the 40 ms gaps
delimit passes (the threshold is 30 ms, not 30 s) and the final pass is
dropped by `to_pulse_passes`, so coordinates are not one-per-pulse. -/
theorem c9_counterexample :
    (tpx3ReaderRun [0x6000000000001040, 0x6000000000002040,
      (0x6 <<< 60) ||| (1600002 <<< 12) ||| (2 <<< 5),
      (0x6 <<< 60) ||| (1600003 <<< 12) ||| (2 <<< 5),
      (0x6 <<< 60) ||| (3200004 <<< 12) ||| (2 <<< 5),
      (0x6 <<< 60) ||| (3200005 <<< 12) ||| (2 <<< 5)]).length = 5 ∧
    (auto_generate_coordinates 10 20 (tdcReaderRun [0x6000000000001040, 0x6000000000002040,
      (0x6 <<< 60) ||| (1600002 <<< 12) ||| (2 <<< 5),
      (0x6 <<< 60) ||| (1600003 <<< 12) ||| (2 <<< 5),
      (0x6 <<< 60) ||| (3200004 <<< 12) ||| (2 <<< 5),
      (0x6 <<< 60) ||| (3200005 <<< 12) ||| (2 <<< 5)])).map List.length = some 4 ∧
    ¬ (4 = 5) := by
  refine ⟨by decide, by decide, by decide⟩

/-- Witness for C9: on the same six-TDC stream the coordinate count equals
the summed length of the retained passes (2 + 2 = 4). -/
theorem c9_coords_witness :
    (auto_generate_coordinates 10 20 [25251, 50251, 40000050251, 40000075251, 80000100251,
      80000125251]).map List.length =
      some (((to_pulse_passes [25251, 50251, 40000050251, 40000075251, 80000100251,
        80000125251]).map List.length).sum) := by
  rcases hco : auto_generate_coordinates 10 20 [25251, 50251, 40000050251, 40000075251,
      80000100251, 80000125251] with _ | cs
  · exact absurd hco (by decide)
  · rw [Option.map_some']
    rw [(c9_coords 10 20 [25251, 50251, 40000050251, 40000075251, 80000100251,
      80000125251] cs hco).1]

theorem setLabel_get? : ∀ (hs : List Hit) (i lab k : Nat),
    (setLabel hs i lab).get? k =
      (hs.get? k).map (fun h => if i = k then { h with label := lab } else h) := by
  intro hs
  induction hs with
  | nil => intro i lab k; simp [setLabel]
  | cons h t ih =>
    intro i lab k
    cases i with
    | zero =>
      cases k with
      | zero => simp [setLabel]
      | succ k => simp [setLabel]
    | succ i =>
      cases k with
      | zero => simp [setLabel]
      | succ k =>
        simp only [setLabel, List.get?_cons_succ]
        rw [ih i lab k]
        by_cases hik : i = k
        · simp [hik]
        · simp [hik, fun hh => hik (Nat.succ_injective hh)]

theorem apply_labels_get? : ∀ (popped : List Hit) (hs : List Hit) (lab k : Nat),
    (apply_labels hs popped lab).get? k =
      (hs.get? k).map
        (fun h => if popped.any (fun c => c.index == k) then { h with label := lab } else h) := by
  intro popped
  induction popped with
  | nil =>
    intro hs lab k
    simp [apply_labels]
  | cons c cs ih =>
    intro hs lab k
    show (apply_labels (setLabel hs c.index lab) cs lab).get? k = _
    rw [ih (setLabel hs c.index lab) lab k, setLabel_get? hs c.index lab k]
    rcases hgk : hs.get? k with _ | h
    · simp
    · simp only [Option.map_some']
      by_cases hck : c.index = k
      · have : (c.index == k) = true := by simp [hck]
        simp only [List.any_cons, this, Bool.true_or, if_pos hck]
        by_cases hcs : cs.any (fun c => c.index == k)
        · simp [hcs]
        · simp [hcs]
      · have : (c.index == k) = false := by simp [hck]
        simp only [List.any_cons, this, Bool.false_or, if_neg hck]

theorem apply_labels_length (popped : List Hit) : ∀ (hs : List Hit) (lab : Nat),
    (apply_labels hs popped lab).length = hs.length := by
  induction popped with
  | nil => intro hs lab; rfl
  | cons c cs ih =>
    intro hs lab
    show (apply_labels (setLabel hs c.index lab) cs lab).length = hs.length
    rw [ih]
    induction hs generalizing c with
    | nil => cases c.index <;> rfl
    | cons h t iht =>
      rcases hci : c.index with _ | j
      · rfl
      · show (h :: setLabel t j lab).length = (h :: t).length
        simp [List.length_cons]
        have := iht { c with index := j }
        simpa [setLabel] using this

theorem floodLoop_checked_prefix (subset : List Hit) : ∀ (fuel : Nat) (act checked : List Hit),
    ∃ l, floodLoop subset fuel act checked = checked ++ l := by
  intro fuel
  induction fuel with
  | zero => intro act checked; exact ⟨[], by simp [floodLoop]⟩
  | succ fuel ih =>
    intro act checked
    cases act with
    | nil => exact ⟨[], by simp [floodLoop]⟩
    | cons check act =>
      obtain ⟨l, hl⟩ := ih
        (subset.foldl
          (fun a h =>
            if h.is_proximal check && !(contains_hit checked h || contains_hit a h)
            then h :: a else a) act)
        (checked ++ [check])
      refine ⟨check :: l, ?_⟩
      show floodLoop subset fuel _ (checked ++ [check]) = _
      rw [hl]
      simp

theorem floodLoop_seed_mem (subset : List Hit) (n : Nat) (seed : Hit) :
    seed ∈ floodLoop subset (n + 2) [seed] [] := by
  show seed ∈ floodLoop subset (n + 1)
    (subset.foldl
      (fun a h =>
        if h.is_proximal seed && !(contains_hit [] h || contains_hit a h)
        then h :: a else a) [])
    ([] ++ [seed])
  obtain ⟨l, hl⟩ := floodLoop_checked_prefix subset (n + 1) _ ([] ++ [seed])
  rw [hl]
  simp

theorem label_hits_go_nil (ohits : List Hit) (st : List Hit × Nat) :
    label_hits_go ohits [] st = st := rfl

theorem label_hits_go_cons_none (ohits : List Hit) (i : Nat) (is : List Nat)
    (hits : List Hit) (cl : Nat) (h : hits.get? i = none) :
    label_hits_go ohits (i :: is) (hits, cl) = label_hits_go ohits is (hits, cl) := by
  conv_lhs => unfold label_hits_go
  rw [h]

theorem label_hits_go_cons_skip (ohits : List Hit) (i : Nat) (is : List Nat)
    (hits : List Hit) (cl : Nat) (hit : Hit) (h : hits.get? i = some hit)
    (hl : ¬ hit.label = 0) :
    label_hits_go ohits (i :: is) (hits, cl) = label_hits_go ohits is (hits, cl) := by
  conv_lhs => unfold label_hits_go
  rw [h]
  show (if hit.label = 0 then _ else _) = _
  rw [if_neg hl]

theorem label_hits_go_cons_fire (ohits : List Hit) (i : Nat) (is : List Nat)
    (hits : List Hit) (cl : Nat) (hit : Hit) (h : hits.get? i = some hit)
    (hl : hit.label = 0) :
    label_hits_go ohits (i :: is) (hits, cl) =
      label_hits_go ohits is
        (apply_labels hits
          (floodLoop (ohits.filter (fun o => candidate_filter hit o))
            ((ohits.filter (fun o => candidate_filter hit o)).length + 2) [hit] []) cl,
         cl + 1) := by
  conv_lhs => unfold label_hits_go
  rw [h]
  show (if hit.label = 0 then _ else _) = _
  rw [if_pos hl]

theorem label_hits_go_inv (ohits : List Hit) : ∀ (is : List Nat) (hits : List Hit) (cl : Nat),
    1 ≤ cl →
    (∀ k h', hits.get? k = some h' → h'.index = k) →
    (∀ k h', hits.get? k = some h' → h'.label = 0 ∨ (1 ≤ h'.label ∧ h'.label < cl)) →
    ((label_hits_go ohits is (hits, cl)).1.length = hits.length ∧
     cl ≤ (label_hits_go ohits is (hits, cl)).2 ∧
     (∀ k h', (label_hits_go ohits is (hits, cl)).1.get? k = some h' →
        h'.label = 0 ∨ (1 ≤ h'.label ∧ h'.label < (label_hits_go ohits is (hits, cl)).2)) ∧
     (∀ k h h', hits.get? k = some h → (label_hits_go ohits is (hits, cl)).1.get? k = some h' →
        h.label ≠ 0 → h'.label ≠ 0) ∧
     (∀ j ∈ is, ∀ h', (label_hits_go ohits is (hits, cl)).1.get? j = some h' →
        h'.label ≠ 0)) := by
  intro is
  induction is with
  | nil =>
    intro hits cl hcl hidx hlab
    rw [label_hits_go_nil]
    refine ⟨rfl, le_refl cl, hlab, ?_, ?_⟩
    · intro k h h' hk hk' hne
      rw [hk] at hk'
      cases hk'
      exact hne
    · intro j hj
      exact absurd hj (List.not_mem_nil j)
  | cons i is ih =>
    intro hits cl hcl hidx hlab
    rcases hgi : hits.get? i with _ | hit
    · rw [label_hits_go_cons_none ohits i is hits cl hgi]
      obtain ⟨R0, R1, R2, R3, R4⟩ := ih hits cl hcl hidx hlab
      refine ⟨R0, R1, R2, R3, ?_⟩
      intro j hj h' hj'
      rcases List.mem_cons.1 hj with hj | hj
      · subst hj
        have hnone : (label_hits_go ohits is (hits, cl)).1.get? j = none := by
          rw [List.get?_eq_none] at hgi ⊢
          rw [R0]
          exact hgi
        rw [hnone] at hj'
        exact absurd hj' (by simp)
      · exact R4 j hj h' hj'
    · by_cases hl0 : hit.label = 0
      · rw [label_hits_go_cons_fire ohits i is hits cl hit hgi hl0]
        set subset := ohits.filter (fun o => candidate_filter hit o) with hsub
        set popped := floodLoop subset (subset.length + 2) [hit] [] with hpop
        set hits2 := apply_labels hits popped cl with hh2
        have hidx2 : ∀ k h', hits2.get? k = some h' → h'.index = k := by
          intro k h' hk
          rw [hh2, apply_labels_get? popped hits cl k] at hk
          rcases hgk : hits.get? k with _ | h0
          · rw [hgk] at hk
            exact absurd hk (by simp)
          · rw [hgk] at hk
            simp only [Option.map_some', Option.some.injEq] at hk
            have := hidx k h0 hgk
            by_cases hany : popped.any (fun c => c.index == k)
            · rw [if_pos hany] at hk
              rw [← hk]
              exact this
            · rw [if_neg hany] at hk
              rw [← hk]
              exact this
        have hlab2 : ∀ k h', hits2.get? k = some h' →
            h'.label = 0 ∨ (1 ≤ h'.label ∧ h'.label < cl + 1) := by
          intro k h' hk
          rw [hh2, apply_labels_get? popped hits cl k] at hk
          rcases hgk : hits.get? k with _ | h0
          · rw [hgk] at hk
            exact absurd hk (by simp)
          · rw [hgk] at hk
            simp only [Option.map_some', Option.some.injEq] at hk
            by_cases hany : popped.any (fun c => c.index == k)
            · rw [if_pos hany] at hk
              right
              rw [← hk]
              exact ⟨hcl, Nat.lt_succ_of_le (le_refl cl)⟩
            · rw [if_neg hany] at hk
              rcases hlab k h0 hgk with h0l | h0l
              · left; rw [← hk]; exact h0l
              · right
                rw [← hk]
                exact ⟨h0l.1, Nat.lt_succ_of_lt h0l.2⟩
        obtain ⟨R0, R1, R2, R3, R4⟩ := ih hits2 (cl + 1) (Nat.le_succ_of_le hcl) hidx2 hlab2
        have hlen2 : hits2.length = hits.length := by
          rw [hh2]
          exact apply_labels_length popped hits cl
        have hpres2 : ∀ k h h', hits.get? k = some h → hits2.get? k = some h' →
            h.label ≠ 0 → h'.label ≠ 0 := by
          intro k h h' hk hk' hne
          rw [hh2, apply_labels_get? popped hits cl k, hk] at hk'
          simp only [Option.map_some', Option.some.injEq] at hk'
          by_cases hany : popped.any (fun c => c.index == k)
          · rw [if_pos hany] at hk'
            rw [← hk']
            show cl ≠ 0
            omega
          · rw [if_neg hany] at hk'
            rw [← hk']
            exact hne
        refine ⟨by rw [R0, hlen2], le_trans (Nat.le_succ cl) R1, R2, ?_, ?_⟩
        · intro k h h' hk hk' hne
          rcases hgk2 : hits2.get? k with _ | h2
          · have : (label_hits_go ohits is (hits2, cl + 1)).1.get? k = none := by
              rw [List.get?_eq_none] at hgk2 ⊢
              rw [R0]
              exact hgk2
            rw [this] at hk'
            exact absurd hk' (by simp)
          · exact R3 k h2 h' hgk2 hk' (hpres2 k h h2 hk hgk2 hne)
        · intro j hj h' hj'
          rcases List.mem_cons.1 hj with hj | hj
          · subst hj
            have hseed : hit ∈ popped := by
              rw [hpop]
              exact floodLoop_seed_mem subset subset.length hit
            have hany : popped.any (fun c => c.index == j) = true := by
              rw [List.any_eq_true]
              refine ⟨hit, hseed, ?_⟩
              simp [hidx j hit hgi]
            have hg2 : hits2.get? j = some { hit with label := cl } := by
              rw [hh2, apply_labels_get? popped hits cl j, hgi]
              simp [hany]
            refine R3 j { hit with label := cl } h' hg2 hj' ?_
            show cl ≠ 0
            omega
          · exact R4 j hj h' hj'
      · rw [label_hits_go_cons_skip ohits i is hits cl hit hgi hl0]
        obtain ⟨R0, R1, R2, R3, R4⟩ := ih hits cl hcl hidx hlab
        refine ⟨R0, R1, R2, R3, ?_⟩
        intro j hj h' hj'
        rcases List.mem_cons.1 hj with hj | hj
        · subst hj
          exact R3 j hit h' hgi hj' hl0
        · exact R4 j hj h' hj'

theorem sum_map_add_distrib (idxs : List Nat) (f g : Nat → Nat) :
    (idxs.map (fun i => f i + g i)).sum = (idxs.map f).sum + (idxs.map g).sum := by
  induction idxs with
  | nil => simp
  | cons i is ih =>
    simp only [List.map_cons, List.sum_cons, ih]
    omega

theorem indicator_sum_zero (lab : Nat) : ∀ C : Nat, C < lab →
    (((List.range C).map (fun i => i + 1)).map (fun i => if lab == i then 1 else 0)).sum = 0 := by
  intro C
  induction C with
  | zero => intro _; simp
  | succ C ih =>
    intro hC
    rw [List.range_succ]
    simp only [List.map_append, List.map_cons, List.map_nil, List.sum_append, List.sum_cons,
      List.sum_nil]
    rw [ih (by omega)]
    have : (lab == C + 1) = false := by
      simp
      omega
    rw [this]
    simp

theorem indicator_sum_one (lab : Nat) : ∀ C : Nat, 1 ≤ lab → lab ≤ C →
    (((List.range C).map (fun i => i + 1)).map (fun i => if lab == i then 1 else 0)).sum = 1 := by
  intro C
  induction C with
  | zero => intro h1 h2; omega
  | succ C ih =>
    intro h1 h2
    rw [List.range_succ]
    simp only [List.map_append, List.map_cons, List.map_nil, List.sum_append, List.sum_cons,
      List.sum_nil]
    by_cases hC : lab ≤ C
    · rw [ih h1 hC]
      have : (lab == C + 1) = false := by
        simp
        omega
      rw [this]
      simp
    · have hlC : lab = C + 1 := by omega
      rw [indicator_sum_zero lab C (by omega)]
      have : (lab == C + 1) = true := by simp [hlC]
      rw [this]
      simp

theorem count_label_sum : ∀ (l : List Hit) (C : Nat),
    (∀ h ∈ l, 1 ≤ h.label ∧ h.label ≤ C) →
    (((List.range C).map (fun i => i + 1)).map
      (fun i => (l.filter (fun h => h.label == i)).length)).sum = l.length := by
  intro l
  induction l with
  | nil =>
    intro C _
    simp only [List.filter_nil, List.length_nil]
    have hz : ∀ L : List Nat, (L.map (fun _ => (0:Nat))).sum = 0 := by
      intro L
      induction L with
      | nil => rfl
      | cons a L ihL => simp [ihL]
    exact hz _
  | cons h t ih =>
    intro C hb
    have hh := hb h (List.mem_cons_self h t)
    have ht : ∀ x ∈ t, 1 ≤ x.label ∧ x.label ≤ C := fun x hx => hb x (List.mem_cons_of_mem h hx)
    have hsplit : ∀ i : Nat, ((h :: t).filter (fun x => x.label == i)).length =
        (if h.label == i then 1 else 0) + (t.filter (fun x => x.label == i)).length := by
      intro i
      rw [List.filter_cons]
      by_cases hi : (h.label == i) = true
      · simp [hi, Nat.add_comm]
      · simp [hi]
    have hmapeq : (((List.range C).map (fun i => i + 1)).map
        (fun i => ((h :: t).filter (fun x => x.label == i)).length)) =
        (((List.range C).map (fun i => i + 1)).map
          (fun i => (if h.label == i then 1 else 0) +
            (t.filter (fun x => x.label == i)).length)) := by
      apply List.map_congr_left
      intro i _
      exact hsplit i
    rw [hmapeq, sum_map_add_distrib, indicator_sum_one h.label C hh.1 hh.2, ih C ht]
    simp only [List.length_cons]
    omega

theorem centroid_step_skip (phits hs0 : List Hit) (c0 i : Nat)
    (hsz : (phits.filter (fun h => h.label == i)).length % 65536 = 0) :
    centroid_step phits (hs0, c0) i = (hs0, c0) := by
  simp only [centroid_step]
  rw [if_pos (by simpa using hsz)]

theorem centroid_step_fire (phits hs0 : List Hit) (c0 i : Nat)
    (hsz : ¬ ((phits.filter (fun h => h.label == i)).length % 65536 = 0)) :
    ∃ nh : Hit, centroid_step phits (hs0, c0) i = (hs0 ++ [nh], c0 + 1) ∧
      nh.size = (phits.filter (fun h => h.label == i)).length % 65536 := by
  simp only [centroid_step]
  rw [if_neg (by simpa using hsz)]
  exact ⟨_, rfl, rfl⟩

theorem centroid_fold_sum (phits : List Hit) : ∀ (idxs : List Nat) (hs0 : List Hit) (c0 : Nat),
    (((idxs.foldl (centroid_step phits) (hs0, c0)).1).map (fun h => h.size)).sum =
      (hs0.map (fun h => h.size)).sum +
      (idxs.map (fun i => (phits.filter (fun h => h.label == i)).length % 65536)).sum := by
  intro idxs
  induction idxs with
  | nil =>
    intro hs0 c0
    simp
  | cons i is ih =>
    intro hs0 c0
    rw [List.foldl_cons]
    by_cases hsz : (phits.filter (fun h => h.label == i)).length % 65536 = 0
    · rw [centroid_step_skip phits hs0 c0 i hsz, ih hs0 c0]
      simp [hsz]
    · obtain ⟨nh, hstep, hsize⟩ := centroid_step_fire phits hs0 c0 i hsz
      rw [hstep, ih (hs0 ++ [nh]) (c0 + 1)]
      simp only [List.map_append, List.sum_append, List.map_cons, List.sum_cons, List.map_nil,
        List.sum_nil, hsize]
      omega

/-- Claim C6: for every pulse whose hits carry their list position in
`index` and start unlabelled (the state in which the decoder hands pulses
to `label_hits`), and with fewer than 65535 hits (so the `u16` cluster
size cannot wrap), the sum of the `size` fields of the centroided pulse's
hits equals the original hit count: `label_hits` gives every hit a label
in `1..=clusters`, each nonempty cluster contributes one centroid hit
whose `size` is the cluster's cardinality, and empty clusters are
skipped. -/
theorem c6_centroid_size_sum (p : Pulse)
    (hidx : ∀ k, ∀ hk : k < p.hits.length, (p.hits.get ⟨k, hk⟩).index = k)
    (hlab : ∀ h ∈ p.hits, h.label = 0)
    (hlen : p.hits.length < 65535) :
    ((p.label_hits.centroid.hits).map (fun h => h.size)).sum = p.hits.length := by
  have hidx2 : ∀ k h', p.hits.get? k = some h' → h'.index = k := by
    intro k h' hk
    obtain ⟨hklt, hget⟩ := List.get?_eq_some.1 hk
    have hi := hidx k hklt
    rw [hget] at hi
    exact hi
  have hlab2 : ∀ k h', p.hits.get? k = some h' → h'.label = 0 ∨ (1 ≤ h'.label ∧ h'.label < 1) :=
    fun k h' hk => Or.inl (hlab h' (List.get?_mem hk))
  obtain ⟨R0, R1, R2, R3, R4⟩ :=
    label_hits_go_inv p.hits (List.range p.hits.length) p.hits 1 (le_refl 1) hidx2 hlab2
  set st := label_hits_go p.hits (List.range p.hits.length) (p.hits, 1) with hst
  have hall : ∀ h ∈ st.1, 1 ≤ h.label ∧ h.label ≤ st.2 - 1 := by
    intro h hm
    obtain ⟨k, hk⟩ := List.get?_of_mem hm
    have hne : h.label ≠ 0 := by
      refine R4 k ?_ h hk
      have hklt : k < st.1.length := (List.get?_eq_some.1 hk).1
      rw [R0] at hklt
      exact List.mem_range.2 hklt
    rcases R2 k h hk with h0 | h0
    · exact absurd h0 hne
    · exact ⟨h0.1, by omega⟩
  have hcent : p.label_hits.centroid.hits =
      (((List.range (st.2 - 1)).map (fun i => i + 1)).foldl (centroid_step st.1) ([], 0)).1 :=
    rfl
  rw [hcent, centroid_fold_sum st.1 ((List.range (st.2 - 1)).map (fun i => i + 1)) [] 0]
  have hdrop : (((List.range (st.2 - 1)).map (fun i => i + 1)).map
      (fun i => (st.1.filter (fun h => h.label == i)).length % 65536)) =
      (((List.range (st.2 - 1)).map (fun i => i + 1)).map
        (fun i => (st.1.filter (fun h => h.label == i)).length)) := by
    apply List.map_congr_left
    intro i _
    apply Nat.mod_eq_of_lt
    calc (st.1.filter (fun h => h.label == i)).length ≤ st.1.length :=
          List.length_filter_le _ _
      _ = p.hits.length := R0
      _ < 65536 := by omega
  rw [hdrop, count_label_sum st.1 (st.2 - 1) hall, R0]
  simp

def c6_pulse : Pulse :=
  { time := 0
    hits := [Hit.new 0 100 50 10 10, Hit.new 1 200 50 10 11, Hit.new 2 300 50 100 100]
    triggers := 1
    clusters := 0 }

/-- Witness for C6 on a three-hit pulse that labels into two clusters of
sizes 2 and 1. -/
theorem c6_centroid_size_sum_witness :
    ((c6_pulse.label_hits.centroid.hits).map (fun h => h.size)).sum = c6_pulse.hits.length :=
  c6_centroid_size_sum c6_pulse (by decide) (by decide) (by decide)

end TPX3
